import Mathlib

set_option maxRecDepth 100000
set_option maxHeartbeats 2000000

namespace StealerParser

/-! Shallow embedding of the lexfo/stealer-parser repository: token model,
parser primitives (`parser.py`), password grammar engine
(`parsing_passwords.py`), system grammar engine (`parsing_system.py`),
lexer dialects (`lexer_passwords.py`, `lexer_system.py`), directory
classification (`processing.py`) and archive text decoding
(`models/archive_wrapper.py`). -/

/-- Lexical token: type tag and raw matched text (ply `LexToken`). -/
structure Tok where
  type : String
  value : String
  deriving DecidableEq, Repr

/-- Credential record (`models/credential.py`), all fields optional. -/
structure Credential where
  software : Option String := none
  host : Option String := none
  username : Option String := none
  password : Option String := none
  domain : Option String := none
  local_part : Option String := none
  email_domain : Option String := none
  filepath : Option String := none
  stealer_name : Option String := none
  deriving DecidableEq, Repr

/-- Mutable state of `LogsParser`: current index `pos` and accumulated
output list; the token list itself is immutable and passed separately. -/
structure St where
  pos : Nat
  out : List Credential
  deriving DecidableEq, Repr

/-- System record (`models/system.py`), all fields optional. -/
structure System where
  machine_id : Option String := none
  computer_name : Option String := none
  hardware_id : Option String := none
  machine_user : Option String := none
  ip_address : Option String := none
  country : Option String := none
  log_date : Option String := none
  deriving DecidableEq, Repr

/-- Python truthiness of an optional string: `None` and `""` are falsy.
Used to embed `any(list(obj.__dict__.values()))`. -/
def optTruthy : Option String → Bool
  | none => false
  | some s => !s.isEmpty

/-- Embeds `any(list(credential.__dict__.values()))` over the dataclass
field order of `Credential`. -/
def credentialAny (c : Credential) : Bool :=
  [c.software, c.host, c.username, c.password, c.domain, c.local_part,
   c.email_domain, c.filepath, c.stealer_name].any optTruthy

/-- Embeds `any(list(system.__dict__.values()))` over the dataclass field
order of `System`. -/
def systemAny (s : System) : Bool :=
  [s.machine_id, s.computer_name, s.hardware_id, s.machine_user,
   s.ip_address, s.country, s.log_date].any optTruthy

/-- Embeds `LogsParser.get_current_token`; `none` models the `IndexError`
raised when the position is out of range. -/
def get_current_token (toks : List Tok) (st : St) : Option Tok :=
  toks[st.pos]?

/-- Embeds the `LogsParser.position` setter: bounds-checked assignment;
`none` models the `IndexError` raised for a position outside `[0, size]`
(the stored position is then left unchanged). -/
def set_position (toks : List Tok) (st : St) (n : Int) : Option St :=
  if n < 0 ∨ n > (toks.length : Int) then none
  else some { st with pos := n.toNat }

/-- Embeds `LogsParser.eat`: consume and return the current token only on
an exact type (and, if given, value) match, else leave state unchanged. -/
def eat (toks : List Tok) (st : St) (ty : String) (v : Option String) :
    Option Tok × St :=
  if st.pos < toks.length then
    match get_current_token toks st with
    | some t =>
        if t.type = ty then
          if v = none ∨ v = some t.value then
            (some t, { st with pos := st.pos + 1 })
          else (none, st)
        else (none, st)
    | none => (none, st)
  else (none, st)

/-- Loop body of `parse_entry` (`parser.py`): concatenate WORD and SPACE
token values, consuming the terminating token as well.  The fuel argument
is exact: the caller passes `toks.length - st.pos`, and the loop advances
the position by one each iteration, so fuel `0` coincides with the loop
condition `pos < size` turning false. -/
def parse_entry_go (toks : List Tok) : Nat → St → String → String × St
  | 0, st, entry => (entry, st)
  | fuel + 1, st, entry =>
    if h : st.pos < toks.length then
      let t := toks.get ⟨st.pos, h⟩
      let st1 : St := { st with pos := st.pos + 1 }
      if t.type = "WORD" ∨ t.type = "SPACE" then
        parse_entry_go toks fuel st1 (entry ++ t.value)
      else (entry, st1)
    else (entry, st)

/-- Embeds `parse_entry`: a valid entry can be empty, in which case `None`
is returned (`return entry if entry else None`). -/
def parse_entry (toks : List Tok) (st : St) : Option String × St :=
  let r := parse_entry_go toks (toks.length - st.pos) st ""
  (if r.1 = "" then none else some r.1, r.2)

/-- Concatenation of a token list's raw values. -/
def joinVals : List Tok → String
  | [] => ""
  | t :: ts => t.value ++ joinVals ts

/-- Concatenation of the raw values of tokens at indices `[a, b)`. -/
def concatVals (toks : List Tok) (a b : Nat) : String :=
  joinVals ((toks.drop a).take (b - a))

/-- One parser-primitive operation, for stating the cursor invariant. -/
inductive POp where
  | opEat (ty : String) (v : Option String)
  | opSetPos (n : Int)
  | opCurrent
  deriving DecidableEq

/-- Effect of one primitive on the parser state.  A rejected position
assignment (modelled by `set_position` returning `none`) leaves the state
unchanged, as does `get_current_token`. -/
def stepOp (toks : List Tok) (st : St) : POp → St
  | .opEat ty v => (eat toks st ty v).2
  | .opSetPos n =>
      match set_position toks st n with
      | some st' => st'
      | none => st
  | .opCurrent => st

/-- Runs a sequence of parser-primitive operations. -/
def runOps (toks : List Tok) (ops : List POp) (st : St) : St :=
  ops.foldl (stepOp toks) st

/-! Lexer.  The token rules are translated from `lexer_passwords.py` and
`lexer_system.py`.  The matching engine itself (the vendored ply `lex`)
is not under `src/`, so it is modelled from the spec (§4.1): prioritized
rules anchored at the cursor, case-insensitive, token value = raw matched
text, tab and carriage return ignored, unknown character = lexical
error. -/

/-- Embeds Python `str.lower()` for the ASCII strings handled here
(charwise, kernel-reducible unlike `String.toLower`). -/
def pyLower (s : String) : String := String.mk (s.data.map Char.toLower)

/-- Embeds Python `str.startswith(pre)`. -/
def pyStartsWith (s pre : String) : Bool := pre.data.isPrefixOf s.data

/-- Word character under `re.ASCII` (`\w`). -/
def isWordChar (c : Char) : Bool := c.isAlpha || c.isDigit || c = '_'

/-- Whitespace under `re.ASCII` (`\s`); `\S` is its negation. -/
def isPySpace (c : Char) : Bool :=
  c = ' ' || c = '\t' || c = '\n' || c = '\r' || c = '\x0b' || c = '\x0c'

/-- Case-insensitive prefix test; the keyword is given in lowercase. -/
def ciIsPre : List Char → List Char → Bool
  | [], _ => true
  | _ :: _, [] => false
  | k :: ks, c :: cs => (c.toLower = k) && ciIsPre ks cs

/-- Length of the maximal `\S+` run at the head of the list. -/
def nsRun : List Char → Nat
  | [] => 0
  | c :: cs => if isPySpace c then 0 else nsRun cs + 1

/-- Length of the maximal run of a fixed character at the head. -/
def chRun (c : Char) : List Char → Nat
  | [] => 0
  | d :: ds => if d = c then chRun c ds + 1 else 0

/-- Matcher for the keyword-alternation rules `\b(kw1|...|kwN)\b:` of both
lexer dialects.  Keywords are listed in the backtracking order of the
Python regex alternation (longer optional-group expansions first); every
keyword ends in a word character, so the trailing `\b` reduces to the
mandatory `:` that follows. -/
def kwRun (kws : List String) (prev : Option Char) (rest : List Char) :
    Option Nat :=
  let boundary := match prev with
    | none => true
    | some c => !isWordChar c
  if boundary then
    kws.findSome? fun kw =>
      if ciIsPre kw.data rest && rest[kw.data.length]? = some ':' then
        some (kw.data.length + 1)
      else none
  else none

/-- Backtracking core of `\["(\S+)" = "(\S+)"\]` (`t_SOFT_NO_PREFIX` and
`SPECIAL_SOFT_PATTERN`): returns the two group lengths. -/
def specialSoftCore (rest : List Char) : Option (Nat × Nat) :=
  match rest with
  | '[' :: '"' :: r2 =>
      ((List.range (nsRun r2)).reverse.map (· + 1)).findSome? fun k =>
        if r2[k]? = some '"' && r2[k + 1]? = some ' '
            && r2[k + 2]? = some '=' && r2[k + 3]? = some ' '
            && r2[k + 4]? = some '"' then
          let r3 := r2.drop (k + 5)
          ((List.range (nsRun r3)).reverse.map (· + 1)).findSome? fun m =>
            if r3[m]? = some '"' && r3[m + 1]? = some ']' then some (k, m)
            else none
        else none
  | _ => none

/-- Matcher for `t_SOFT_NO_PREFIX`. -/
def softNoRun (rest : List Char) : Option Nat :=
  (specialSoftCore rest).map fun p => 2 + p.1 + 5 + p.2 + 2

/-- Matcher for `t_WORD` (`\S+`). -/
def wordRun (rest : List Char) : Option Nat :=
  let n := nsRun rest
  if n = 0 then none else some n

/-- Matcher for the string rules `\n+` / `\ +`. -/
def runRule (c : Char) (rest : List Char) : Option Nat :=
  let n := chRun c rest
  if n = 0 then none else some n

/-- One prioritized lexer rule: token type plus a matcher taking the
previous character (for `\b`) and the remaining text. -/
structure LexRule where
  type : String
  run : Option Char → List Char → Option Nat

/-- Modelled from the spec: the ply lexing engine (vendored under
`stealer_parser/ply`, not under `src/`).  At each position an ignored
character (tab, carriage return) is skipped, otherwise the prioritized
rules are tried in order and the first match emits a token carrying the
raw matched text; no match is a fatal lexical error (`none`).  Fuel is
the remaining text length; every match consumes at least one character,
so the fuel-exhaustion branch is unreachable. -/
def lexGo (rules : List LexRule) : Nat → Option Char → List Char →
    Option (List Tok)
  | _, _, [] => some []
  | 0, _, _ :: _ => none
  | fuel + 1, prev, c :: cs =>
      if c = '\t' ∨ c = '\r' then lexGo rules fuel (some c) cs
      else
        match (rules.findSome? fun r =>
            (r.run prev (c :: cs)).map fun n => (r.type, n)) with
        | some (ty, n) =>
            if n = 0 then none
            else
              let chunk := (c :: cs).take n
              (lexGo rules fuel chunk.getLast? ((c :: cs).drop n)).map
                fun ts => Tok.mk ty (String.mk chunk) :: ts
        | none => none

/-- Rule table of `lexer_passwords.py`, in ply priority order. -/
def passwordRules : List LexRule :=
  [ ⟨"SOFT_PREFIX", kwRun ["soft", "browser", "application", "storage"]⟩,
    ⟨"SOFT_NO_PREFIX", fun _ rest => softNoRun rest⟩,
    ⟨"HOST_PREFIX", kwRun ["hostname", "host", "url", "ur1"]⟩,
    ⟨"USER_PREFIX",
      kwRun ["user login", "username", "user", "login", "u53rn4m3"]⟩,
    ⟨"PASSWORD_PREFIX",
      kwRun ["user password", "password", "pass", "p455w0rd"]⟩,
    ⟨"SELLER_PREFIX", kwRun ["seller", "log tools", "free logs"]⟩,
    ⟨"WORD", fun _ rest => wordRun rest⟩,
    ⟨"NEWLINE", fun _ rest => runRule '\n' rest⟩,
    ⟨"SPACE", fun _ rest => runRule ' ' rest⟩ ]

/-- Rule table of `lexer_system.py`, in ply priority order. -/
def systemRules : List LexRule :=
  [ ⟨"OTHER_PREFIX",
      kwRun ["user agents", "installed apps", "current user",
        "process list"]⟩,
    ⟨"UID_PREFIX", kwRun ["uid", "machineid"]⟩,
    ⟨"COMPUTER_NAME_PREFIX",
      kwRun ["computer name", "computername", "computer", "pc name",
        "hostname", "machinename"]⟩,
    ⟨"HWID_PREFIX", kwRun ["hwid"]⟩,
    ⟨"USERNAME_PREFIX", kwRun ["user name", "username", "user"]⟩,
    ⟨"IP_PREFIX", kwRun ["ip address", "ipaddress", "ip", "lanip"]⟩,
    ⟨"COUNTRY_PREFIX", kwRun ["country code", "country"]⟩,
    ⟨"LOG_DATE_PREFIX", kwRun ["log date", "last seen", "install date"]⟩,
    ⟨"WORD", fun _ rest => wordRun rest⟩,
    ⟨"NEWLINE", fun _ rest => runRule '\n' rest⟩,
    ⟨"SPACE", fun _ rest => runRule ' ' rest⟩ ]

/-- Embeds `tokenize_passwords` (modulo the file-logging side effects). -/
def tokenize_passwords (text : String) : Option (List Tok) :=
  lexGo passwordRules text.data.length none text.data

/-- Embeds `tokenize_system` (modulo the file-logging side effects). -/
def tokenize_system (text : String) : Option (List Tok) :=
  lexGo systemRules text.data.length none text.data


/-! System grammar engine (`parsing_system.py`). -/

/-- Embeds `parse_uid_line`. -/
def parse_uid_line (toks : List Tok) (st : St) (sys : System) :
    Bool × St × System :=
  let r := eat toks st "UID_PREFIX" none
  if r.1.isSome then
    let rs := eat toks r.2 "SPACE" none
    let step :=
      if rs.1.isSome then
        let re := parse_entry toks rs.2
        (re.2, { sys with machine_id := re.1 })
      else (rs.2, sys)
    let rn := eat toks step.1 "NEWLINE" none
    (true, rn.2, step.2)
  else (false, st, sys)

/-- Embeds `parse_computer_line`. -/
def parse_computer_line (toks : List Tok) (st : St) (sys : System) :
    Bool × St × System :=
  let r := eat toks st "COMPUTER_NAME_PREFIX" none
  if r.1.isSome then
    let rs := eat toks r.2 "SPACE" none
    let step :=
      if rs.1.isSome then
        let re := parse_entry toks rs.2
        (re.2, { sys with computer_name := re.1 })
      else (rs.2, sys)
    let rn := eat toks step.1 "NEWLINE" none
    (true, rn.2, step.2)
  else (false, st, sys)

/-- Embeds `parse_hwid_line`. -/
def parse_hwid_line (toks : List Tok) (st : St) (sys : System) :
    Bool × St × System :=
  let r := eat toks st "HWID_PREFIX" none
  if r.1.isSome then
    let rs := eat toks r.2 "SPACE" none
    let step :=
      if rs.1.isSome then
        let re := parse_entry toks rs.2
        (re.2, { sys with hardware_id := re.1 })
      else (rs.2, sys)
    let rn := eat toks step.1 "NEWLINE" none
    (true, rn.2, step.2)
  else (false, st, sys)

/-- Embeds `parse_username_line`. -/
def parse_username_line (toks : List Tok) (st : St) (sys : System) :
    Bool × St × System :=
  let r := eat toks st "USERNAME_PREFIX" none
  if r.1.isSome then
    let rs := eat toks r.2 "SPACE" none
    let step :=
      if rs.1.isSome then
        let re := parse_entry toks rs.2
        (re.2, { sys with machine_user := re.1 })
      else (rs.2, sys)
    let rn := eat toks step.1 "NEWLINE" none
    (true, rn.2, step.2)
  else (false, st, sys)

/-- Embeds `parse_ip_line`.  The eaten token's raw value (for example
`"IP:"` or `"LANIP:"`, colon included) is lowercased and compared against
the literal `"lanip"`, and only when it matches and an IP address is
already set (Python truthiness) is the cursor advanced via the
bounds-checked position setter instead of parsing the entry.  The outer
`Option` models the `IndexError` that setter could raise. -/
def parse_ip_line (toks : List Tok) (st : St) (sys : System) :
    Option (Bool × St × System) :=
  let r := eat toks st "IP_PREFIX" none
  match r.1 with
  | some ipTok =>
      let rs := eat toks r.2 "SPACE" none
      let afterValue : Option (St × System) :=
        if rs.1.isSome then
          if pyLower ipTok.value = "lanip" && optTruthy sys.ip_address then
            (set_position toks rs.2 ((rs.2.pos : Int) + 1)).map
              fun st' => (st', sys)
          else
            let re := parse_entry toks rs.2
            some (re.2, { sys with ip_address := re.1 })
        else some (rs.2, sys)
      afterValue.map fun p =>
        let rn := eat toks p.1 "NEWLINE" none
        (true, rn.2, p.2)
  | none => some (false, st, sys)

/-- Embeds `parse_country_line`. -/
def parse_country_line (toks : List Tok) (st : St) (sys : System) :
    Bool × St × System :=
  let r := eat toks st "COUNTRY_PREFIX" none
  if r.1.isSome then
    let rs := eat toks r.2 "SPACE" none
    let step :=
      if rs.1.isSome then
        let re := parse_entry toks rs.2
        (re.2, { sys with country := re.1 })
      else (rs.2, sys)
    let rn := eat toks step.1 "NEWLINE" none
    (true, rn.2, step.2)
  else (false, st, sys)

/-- Embeds `parse_log_date_line`. -/
def parse_log_date_line (toks : List Tok) (st : St) (sys : System) :
    Bool × St × System :=
  let r := eat toks st "LOG_DATE_PREFIX" none
  if r.1.isSome then
    let rs := eat toks r.2 "SPACE" none
    let step :=
      if rs.1.isSome then
        let re := parse_entry toks rs.2
        (re.2, { sys with log_date := re.1 })
      else (rs.2, sys)
    let rn := eat toks step.1 "NEWLINE" none
    (true, rn.2, step.2)
  else (false, st, sys)

/-- Main loop of `parse_system`: dispatch on the current token's type, or
skip one token.  Every dispatched rule consumes at least its prefix token
and the skip branch consumes one, so fuel `toks.length` is sufficient;
the outer `Option` propagates the modelled `IndexError` of
`parse_ip_line`. -/
def parse_system_go (toks : List Tok) : Nat → St → System → Option System
  | 0, _, sys => some sys
  | fuel + 1, st, sys =>
      if h : st.pos < toks.length then
        let t := toks.get ⟨st.pos, h⟩
        if t.type = "UID_PREFIX" then
          let r := parse_uid_line toks st sys
          parse_system_go toks fuel r.2.1 r.2.2
        else if t.type = "COMPUTER_NAME_PREFIX" then
          let r := parse_computer_line toks st sys
          parse_system_go toks fuel r.2.1 r.2.2
        else if t.type = "HWID_PREFIX" then
          let r := parse_hwid_line toks st sys
          parse_system_go toks fuel r.2.1 r.2.2
        else if t.type = "USERNAME_PREFIX" then
          let r := parse_username_line toks st sys
          parse_system_go toks fuel r.2.1 r.2.2
        else if t.type = "IP_PREFIX" then
          match parse_ip_line toks st sys with
          | some r => parse_system_go toks fuel r.2.1 r.2.2
          | none => none
        else if t.type = "COUNTRY_PREFIX" then
          let r := parse_country_line toks st sys
          parse_system_go toks fuel r.2.1 r.2.2
        else if t.type = "LOG_DATE_PREFIX" then
          let r := parse_log_date_line toks st sys
          parse_system_go toks fuel r.2.1 r.2.2
        else
          parse_system_go toks fuel { st with pos := st.pos + 1 } sys
      else some sys

/-- Embeds `parse_system` on an already-tokenized input: the parsed record
is returned only if some field is set (Python truthiness), mirroring
`return system if any(list(system.__dict__.values())) else None`. -/
def parse_system (toks : List Tok) : Option (Option System) :=
  (parse_system_go toks toks.length ⟨0, []⟩ {}).map fun sys =>
    if systemAny sys then some sys else none

/-! Byte-level decoding helpers.  `base64.b64decode` and `bytes.decode`
are Python standard-library collaborators (not under `src/`); they are
modelled from their documented behavior, which the spec relies on
(§4.3 base64 attempt, §6 `read_text`). -/

/-- Strict UTF-8 decode of one scalar: returns the character and the
remaining bytes, or `none` on an invalid, overlong, surrogate or
out-of-range sequence (CPython strict `bytes.decode("utf-8")`). -/
def utf8Step : List Nat → Option (Char × List Nat)
  | [] => none
  | b :: rest =>
      if b < 0x80 then some (Char.ofNat b, rest)
      else if 0xC2 ≤ b ∧ b ≤ 0xDF then
        match rest with
        | b2 :: r2 =>
            if 0x80 ≤ b2 ∧ b2 ≤ 0xBF then
              some (Char.ofNat ((b - 0xC0) * 0x40 + (b2 - 0x80)), r2)
            else none
        | [] => none
      else if 0xE0 ≤ b ∧ b ≤ 0xEF then
        match rest with
        | b2 :: b3 :: r2 =>
            let lo2 := if b = 0xE0 then 0xA0 else 0x80
            let hi2 := if b = 0xED then 0x9F else 0xBF
            if (lo2 ≤ b2 ∧ b2 ≤ hi2) ∧ (0x80 ≤ b3 ∧ b3 ≤ 0xBF) then
              some (Char.ofNat
                ((b - 0xE0) * 0x1000 + (b2 - 0x80) * 0x40 + (b3 - 0x80)), r2)
            else none
        | _ => none
      else if 0xF0 ≤ b ∧ b ≤ 0xF4 then
        match rest with
        | b2 :: b3 :: b4 :: r2 =>
            let lo2 := if b = 0xF0 then 0x90 else 0x80
            let hi2 := if b = 0xF4 then 0x8F else 0xBF
            if (lo2 ≤ b2 ∧ b2 ≤ hi2) ∧ (0x80 ≤ b3 ∧ b3 ≤ 0xBF)
                ∧ (0x80 ≤ b4 ∧ b4 ≤ 0xBF) then
              some (Char.ofNat ((b - 0xF0) * 0x40000 + (b2 - 0x80) * 0x1000
                + (b3 - 0x80) * 0x40 + (b4 - 0x80)), r2)
            else none
        | _ => none
      else none

/-- Strict UTF-8 decode (`bytes.decode("utf-8")`); `none` models the
raised `UnicodeDecodeError`.  Fuel is the byte count; every step consumes
at least one byte. -/
def utf8DecodeGo : Nat → List Nat → Option (List Char)
  | _, [] => some []
  | 0, _ :: _ => none
  | fuel + 1, l =>
      match utf8Step l with
      | some (c, rest) => (utf8DecodeGo fuel rest).map (c :: ·)
      | none => none

/-- Strict UTF-8 decode entry point. -/
def utf8Decode (l : List Nat) : Option (List Char) :=
  utf8DecodeGo l.length l

/-- Lossy UTF-8 decode with `errors="ignore"`: undecodable bytes are
dropped.  Skipping one byte at a time on failure produces the same string
as CPython's maximal-subpart skipping, because every byte of a skipped
subpart is itself undecodable as a sequence start. -/
def utf8IgnoreGo : Nat → List Nat → List Char
  | _, [] => []
  | 0, _ :: _ => []
  | fuel + 1, l@(_ :: bs) =>
      match utf8Step l with
      | some (c, rest) => c :: utf8IgnoreGo fuel rest
      | none => utf8IgnoreGo fuel bs

/-- Lossy UTF-8 decode entry point (`decode("utf-8", errors="ignore")`). -/
def utf8DecodeIgnore (l : List Nat) : List Char :=
  utf8IgnoreGo l.length l

/-- Base64 alphabet character (`A-Za-z0-9+/`). -/
def isB64Char (c : Char) : Bool := c.isAlpha || c.isDigit || c = '+' || c = '/'

/-- Value of a base64 alphabet character. -/
def b64Val (c : Char) : Nat :=
  if 'A' ≤ c ∧ c ≤ 'Z' then c.toNat - 65
  else if 'a' ≤ c ∧ c ≤ 'z' then c.toNat - 97 + 26
  else if c.isDigit then c.toNat - 48 + 52
  else if c = '+' then 62 else 63

/-- Emits the bytes of a (possibly final partial) base64 group. -/
def b64Bytes : List Nat → List Nat
  | [a, b] => [a * 4 + b / 16]
  | [a, b, c] => [a * 4 + b / 16, (b % 16) * 16 + c / 4]
  | [a, b, c, d] => [a * 4 + b / 16, (b % 16) * 16 + c / 4, (c % 4) * 64 + d]
  | _ => []

/-- Modelled from the library behavior of `base64.b64decode` (non-strict
`binascii.a2b_base64`): non-alphabet characters are discarded; a padding
`=` after at least two group characters flushes the group and ends the
decode; fewer than four group characters left at the end of input is an
`Incorrect padding` error (`none`). -/
def b64Go : List Char → List Nat → Option (List Nat)
  | [], buf => if buf.length = 0 then some [] else none
  | c :: cs, buf =>
      if isB64Char c then
        let buf2 := buf ++ [b64Val c]
        if buf2.length = 4 then (b64Go cs []).map (b64Bytes buf2 ++ ·)
        else b64Go cs buf2
      else if c = '=' then
        if 2 ≤ buf.length then some (b64Bytes buf)
        else b64Go cs buf
      else b64Go cs buf

/-- Embeds `b64decode(entry).decode("utf-8").replace("\n", "")`; `none`
models the caught `binascii.Error` / `ValueError`. -/
def b64_utf8 (entry : String) : Option String :=
  (b64Go entry.data []).bind fun bytes =>
    (utf8Decode bytes).map fun cs => String.mk (cs.filter (· ≠ '\n'))

/-- Loop of `parse_multiline_entry`: eat WORD or NEWLINE tokens, keeping
WORD values, until neither matches.  Fuel is exact (one token per
iteration). -/
def parse_multiline_go (toks : List Tok) : Nat → St → String → String × St
  | 0, st, entry => (entry, st)
  | fuel + 1, st, entry =>
      if st.pos < toks.length then
        let r := eat toks st "WORD" none
        match r.1 with
        | some t => parse_multiline_go toks fuel r.2 (entry ++ t.value)
        | none =>
            let r2 := eat toks r.2 "NEWLINE" none
            if r2.1.isSome then parse_multiline_go toks fuel r2.2 entry
            else (entry, r2.2)
      else (entry, st)

/-- Embeds `parse_multiline_entry`: the joined words are base64-decoded
when possible, the raw join is kept otherwise; an empty join yields
`None`. -/
def parse_multiline_entry (toks : List Tok) (st : St) : Option String × St :=
  let r := parse_multiline_go toks (toks.length - st.pos) st ""
  if r.1 ≠ "" then
    match b64_utf8 r.1 with
    | some s => (some s, r.2)
    | none => (some r.1, r.2)
  else (none, r.2)

/-- Helper for `parser.eat("WORD") or parser.eat("SPACE")`. -/
def eatWordOrSpace (toks : List Tok) (st : St) : Option Tok × St :=
  let r := eat toks st "WORD" none
  if r.1.isSome then r else eat toks r.2 "SPACE" none

/-- Loop `while is_header: is_header = bool(eat WORD or eat SPACE)`.
Fuel is exact (one token per iteration). -/
def skipWS_go (toks : List Tok) : Nat → St → St
  | 0, st => st
  | fuel + 1, st =>
      let r := eatWordOrSpace toks st
      if r.1.isSome then skipWS_go toks fuel r.2 else r.2

/-- Embeds `skip_header_line`: note that it may consume WORD/SPACE tokens
and still return `False` when no NEWLINE follows them. -/
def skip_header_line (toks : List Tok) (st : St) : Bool × St :=
  let r := eatWordOrSpace toks st
  if r.1.isSome then
    let st2 := skipWS_go toks (toks.length - r.2.pos) r.2
    let rn := eat toks st2 "NEWLINE" none
    (rn.1.isSome, rn.2)
  else (false, r.2)

/-- Loop of `skip_seller_block`: each continuing iteration eats a
SELLER/HOST prefix token, so one extra unit of fuel is sufficient. -/
def seller_go (toks : List Tok) : Nat → St → St
  | 0, st => st
  | fuel + 1, st =>
      let rs := eat toks st "SPACE" none
      let st1 := if rs.1.isSome then (parse_entry toks rs.2).2 else rs.2
      let rn := eat toks st1 "NEWLINE" none
      let rp := eat toks rn.2 "SELLER_PREFIX" none
      let rp2 := if rp.1.isSome then rp else eat toks rp.2 "HOST_PREFIX" none
      if rp2.1.isSome then seller_go toks fuel rp2.2 else rp2.2

/-- Embeds `skip_seller_block`. -/
def skip_seller_block (toks : List Tok) (st : St) : Bool × St :=
  let r := eat toks st "SELLER_PREFIX" none
  if r.1.isSome then (true, seller_go toks (toks.length - r.2.pos + 1) r.2)
  else (false, r.2)

/-! Credential helper functions (`models/credential.py`) and the filename
regexes of `parsing_passwords.py`. -/

/-- Character class `[A-Za-z0-9_ ]` of `PASSWORDS_BROWSER_REGEX`. -/
def browserChar (c : Char) : Bool := c.isAlpha || c.isDigit || c = '_' || c = ' '

/-- Embeds `get_browser_name`: `re.search` of
`(?i)\bPasswords\[([A-Za-z0-9_ ]+)\]\S+\.txt\b` returning group 1.
Positions are scanned left to right (leftmost match), the bracketed group
is the maximal allowed-character run (`]` is outside the class, so greedy
matching cannot backtrack past it), and the suffix check mirrors
`\S+\.txt\b`. -/
def get_browser_name (filename : String) : Option String :=
  let cs := filename.data
  (List.range (cs.length + 1)).findSome? fun i =>
    let boundary : Bool := match i, cs[i-1]? with
      | 0, _ => true
      | _ + 1, some c => !isWordChar c
      | _ + 1, none => true
    if boundary && ciIsPre "passwords[".data (cs.drop i) then
      let r2 := cs.drop (i + 10)
      let m := (r2.takeWhile browserChar).length
      if 1 ≤ m && r2[m]? = some ']' then
        let r3 := r2.drop (m + 1)
        let suffixOk := (List.range (nsRun r3 + 1)).any fun k =>
          1 ≤ k && ciIsPre ".txt".data (r3.drop k) &&
            (match r3[k + 4]? with
              | some c => !isWordChar c
              | none => true)
        if suffixOk then some (String.mk (r2.take m)) else none
      else none
    else none

/-- Character class `[\[\]"']` of `NORM_TEXT_PATTERN`. -/
def normStripChar (c : Char) : Bool :=
  c = '[' || c = ']' || c = '"' || c = Char.ofNat 39

/-- Embeds `normalize_credential_text`: lowercase the software name,
strip brackets and quotes, replace underscores with spaces. -/
def normalize_credential_text (c : Credential) : Credential :=
  match c.software with
  | some s =>
      if !s.isEmpty then
        let t := (pyLower s).data.filter (fun ch => !normStripChar ch)
        let t2 := t.map fun ch => if ch = '_' then ' ' else ch
        { c with software := some (String.mk t2) }
      else c
  | none => c

/-- Backtracking matcher for `EMAIL_PATTERN` =
`\b(\S+)@(\S+\.\S+)\b` under `re.match` (anchored): returns the two
groups.  The leading `\b` requires a word character at position 0; each
`\S+` is tried greedily (longest first); the trailing `\b` is a
word/non-word transition. -/
def emailMatch (cs : List Char) : Option (List Char × List Char) :=
  match cs with
  | [] => none
  | c0 :: _ =>
      if !isWordChar c0 then none
      else
        ((List.range (nsRun cs)).reverse.map (· + 1)).findSome? fun L =>
          if cs[L]? = some '@' then
            let t := cs.drop (L + 1)
            ((List.range (nsRun t)).reverse.map (· + 1)).findSome? fun a =>
              if t[a]? = some '.' then
                let u := t.drop (a + 1)
                ((List.range (nsRun u)).reverse.map (· + 1)).findSome? fun b =>
                  let lastW : Bool := match u[b-1]? with
                    | some c => isWordChar c
                    | none => false
                  let nextW : Bool := match u[b]? with
                    | some c => isWordChar c
                    | none => false
                  if lastW != nextW then some (cs.take L, t.take (a + 1 + b))
                  else none
              else none
          else none

/-- Embeds `split_credential_email`. -/
def split_credential_email (c : Credential) : Credential :=
  match c.username with
  | none => c
  | some u =>
      if u.isEmpty then c
      else
        match emailMatch u.data with
        | some p =>
            { c with local_part := some (String.mk p.1),
                     email_domain := some (String.mk p.2) }
        | none => c

/-- Modelled from the library behavior of `urllib.parse.urlparse(...).hostname`
(standard library, not under `src/`): an optional `scheme:` is stripped
when the scheme is syntactically valid; a netloc exists only after `//`;
the hostname is the netloc after the last `@`, before the first `:`,
lowercased; empty means `None`.  (Bracketed IPv6 netlocs are not
modelled; no input here contains one.) -/
def urlparse_hostname (s : String) : Option String :=
  let cs := s.data
  let rest :=
    match cs.findIdx? (· = ':') with
    | some i =>
        let sch := cs.take i
        match sch with
        | c :: tl =>
            if c.isAlpha && tl.all (fun ch =>
                ch.isAlpha || ch.isDigit || ch = '+' || ch = '-' || ch = '.') then
              cs.drop (i + 1)
            else cs
        | [] => cs
    | none => cs
  match rest with
  | '/' :: '/' :: r2 =>
      let netloc := r2.takeWhile (fun c => c ≠ '/' && c ≠ '?' && c ≠ '#')
      let hostinfo := (netloc.reverse.takeWhile (· ≠ '@')).reverse
      let host := hostinfo.takeWhile (· ≠ ':')
      if host.isEmpty then none
      else some (String.mk (host.map Char.toLower))
  | _ => none

/-- Embeds `extract_credential_domain_name`. -/
def extract_credential_domain_name (c : Credential) : Credential :=
  match c.host with
  | none => c
  | some h =>
      if h.isEmpty then c
      else
        match urlparse_hostname h with
        | some d => { c with domain := some d }
        | none => c

/-- Embeds `special_soft_match`: the anchored
`SPECIAL_SOFT_PATTERN.match`, returning both groups. -/
def special_soft_match (s : String) : Option (String × String) :=
  (specialSoftCore s.data).map fun p =>
    (String.mk ((s.data.drop 2).take p.1),
     String.mk ((s.data.drop (2 + p.1 + 5)).take p.2))

/-! Password grammar engine (`parsing_passwords.py`). -/

/-- Embeds `skip_profile_line`. -/
def skip_profile_line (toks : List Tok) (st : St) : St :=
  let r := eat toks st "WORD" (some "profile:")
  if r.1.isSome then skipWS_go toks (toks.length - r.2.pos) r.2 else r.2

/-- Embeds `parse_software_line`, including the `SOFT_NO_PREFIX`
backtrack (`parser.position -= 1`, always in range since a token was just
eaten). -/
def parse_software_line (toks : List Tok) (st : St) (c : Credential) :
    Bool × St × Credential :=
  let r := eat toks st "SOFT_PREFIX" none
  if r.1.isSome then
    let rs := eat toks r.2 "SPACE" none
    let step :=
      if rs.1.isSome then
        let re := parse_entry toks rs.2
        (re.2, { c with software := re.1 })
      else (rs.2, c)
    let rn := eat toks step.1 "NEWLINE" none
    (true, skip_profile_line toks rn.2, step.2)
  else
    let rw := eat toks st "SOFT_NO_PREFIX" none
    match rw.1 with
    | some softTok =>
        match special_soft_match softTok.value with
        | some p =>
            let c1 := { c with software := some (p.1 ++ " " ++ p.2) }
            let rn := eat toks rw.2 "NEWLINE" none
            (true, rn.2, c1)
        | none => (false, { rw.2 with pos := rw.2.pos - 1 }, c)
    | none => (false, rw.2, c)

/-- Embeds `parse_host_line`. -/
def parse_host_line (toks : List Tok) (st : St) (c : Credential) :
    Bool × St × Credential :=
  let r := eat toks st "HOST_PREFIX" none
  if r.1.isSome then
    let rs := eat toks r.2 "SPACE" none
    let step :=
      if rs.1.isSome then
        let re := parse_entry toks rs.2
        (re.2, extract_credential_domain_name { c with host := re.1 })
      else (rs.2, c)
    let rn := eat toks step.1 "NEWLINE" none
    (true, rn.2, step.2)
  else (false, st, c)

/-- Embeds `parse_user_line`. -/
def parse_user_line (toks : List Tok) (st : St) (c : Credential) :
    Bool × St × Credential :=
  let r := eat toks st "USER_PREFIX" none
  if r.1.isSome then
    let rs := eat toks r.2 "SPACE" none
    let step :=
      if rs.1.isSome then
        let re := parse_entry toks rs.2
        (re.2, split_credential_email { c with username := re.1 })
      else (rs.2, c)
    let rn := eat toks step.1 "NEWLINE" none
    (true, rn.2, step.2)
  else (false, st, c)

/-- Embeds `parse_password_line`, including the android multi-line
backtrack (`parser.position = current`, always in range since `current`
is an earlier valid position). -/
def parse_password_line (toks : List Tok) (st : St) (c : Credential) :
    Bool × St × Credential :=
  let r := eat toks st "PASSWORD_PREFIX" none
  if r.1.isSome then
    let rs := eat toks r.2 "SPACE" none
    if rs.1.isSome then
      let current := rs.2.pos
      let re := parse_entry toks rs.2
      let rn := eat toks re.2 "NEWLINE" none
      let afterCheck : Option String × St :=
        if rn.1.isSome then (re.1, rn.2)
        else
          let rw := eat toks rn.2 "WORD" none
          if rw.1.isSome &&
              (match c.host with
                | some h => !h.isEmpty && pyStartsWith h "android://"
                | none => false) then
            parse_multiline_entry toks { rw.2 with pos := current }
          else (re.1, rw.2)
      (true, afterCheck.2, { c with password := afterCheck.1 })
    else (true, rs.2, c)
  else (false, st, c)

/-- Tag for one of the four user-block rules, standing for the Python
function objects held in `parsing_funcs`. -/
inductive PFunc where
  | soft
  | host
  | user
  | pw
  deriving DecidableEq, Repr

/-- Dispatch a rule tag to its parsing function. -/
def applyPFunc (toks : List Tok) : PFunc → St → Credential →
    Bool × St × Credential
  | .soft => parse_software_line toks
  | .host => parse_host_line toks
  | .user => parse_user_line toks
  | .pw => parse_password_line toks

/-- Loop `while parser.eat("NEWLINE") or parser.eat("SPACE")` of
`parse_line`.  Fuel is exact (one token per iteration). -/
def skipNlSp_go (toks : List Tok) : Nat → St → St
  | 0, st => st
  | fuel + 1, st =>
      let r := eat toks st "NEWLINE" none
      let r2 := if r.1.isSome then r else eat toks r.2 "SPACE" none
      if r2.1.isSome then skipNlSp_go toks fuel r2.2 else r2.2

/-- Result state of `parse_line` / the user-block loop: remaining rule
set, parser state, credential under construction. -/
structure BlockSt where
  funcs : List PFunc
  st : St
  cred : Credential
  deriving DecidableEq, Repr

/-- Embeds `parse_line`: try the remaining rules in order; the first that
matches is removed from the set and trailing NEWLINE/SPACE tokens are
skipped. -/
def parse_line (toks : List Tok) : List PFunc → St → Credential →
    Bool × BlockSt
  | [], st, c => (false, ⟨[], st, c⟩)
  | f :: fs, st, c =>
      let r := applyPFunc toks f st c
      if r.1 then
        let st2 := skipNlSp_go toks (toks.length - r.2.1.pos) r.2.1
        (true, ⟨fs, st2, r.2.2⟩)
      else
        let rr := parse_line toks fs r.2.1 r.2.2
        (rr.1, ⟨f :: rr.2.funcs, rr.2.st, rr.2.cred⟩)

/-- Loop `while True: if not parse_line(...): break` of
`parse_user_block`.  Each continuing iteration removes one rule from the
set, so fuel `funcs.length + 1` is exact. -/
def user_block_go (toks : List Tok) : Nat → List PFunc → St → Credential →
    BlockSt
  | 0, fs, st, c => ⟨fs, st, c⟩
  | fuel + 1, fs, st, c =>
      let r := parse_line toks fs st c
      if r.1 then user_block_go toks fuel r.2.funcs r.2.st r.2.cred
      else r.2

/-- Result of the user-block loop started on the four rules with a fresh
credential; fuel `4 + 1` is exact since each continuing iteration removes
one rule. -/
def userBlockRes (toks : List Tok) (st : St) : BlockSt :=
  user_block_go toks 5 [.soft, .host, .user, .pw] st {}

/-- Finalization of an accepted credential in `parse_user_block`: the
software name is back-filled from the filename when the software rule
never matched (`parse_software_line in parsing_funcs`), the filepath is
set, and the text is normalized. -/
def finalizeCred (r : BlockSt) (filename : String) : Credential :=
  let c1 := if PFunc.soft ∈ r.funcs then
      { r.cred with software := get_browser_name filename }
    else r.cred
  normalize_credential_text { c1 with filepath := some filename }

/-- Embeds `parse_user_block`: append the credential if any field is
truthy (finalized first); otherwise accept the block only when fewer
than two rules remain unmatched (`len(parsing_funcs) < 2`). -/
def parse_user_block (toks : List Tok) (st : St) (filename : String) :
    Bool × St :=
  let r := userBlockRes toks st
  if credentialAny r.cred then
    (true, { r.st with out := r.st.out ++ [finalizeCred r filename] })
  else
    (decide (r.funcs.length < 2), r.st)

/-- Parse error data: the offending token (as read by
`get_current_token`) and its position, mirroring the `SyntaxError`
message of `parse_passwords`. -/
structure PErr where
  tok : Option Tok
  pos : Nat
  deriving DecidableEq, Repr

/-- Result of `parse_passwords`: a raised `SyntaxError` or the credential
list. -/
inductive PResult where
  | err (e : PErr)
  | ok (creds : List Credential)
  deriving DecidableEq, Repr

/-- Main loop of `parse_passwords`: seller skip (until it first
succeeds), then blank line / header / user block; stop when none
applies.  Each continuing iteration strictly advances the cursor, so
fuel `toks.length + 1` is sufficient. -/
def passwords_go (toks : List Tok) (filename : String) :
    Nat → St → Bool → St
  | 0, st, _ => st
  | fuel + 1, st, parsedSeller =>
      if st.pos < toks.length then
        let sellerStep : Bool × St :=
          if parsedSeller then (true, st) else skip_seller_block toks st
        let r := eat toks sellerStep.2 "NEWLINE" none
        if r.1.isSome then passwords_go toks filename fuel r.2 sellerStep.1
        else
          let rh := skip_header_line toks r.2
          if rh.1 then passwords_go toks filename fuel rh.2 sellerStep.1
          else
            let rb := parse_user_block toks rh.2 filename
            if rb.1 then passwords_go toks filename fuel rb.2 sellerStep.1
            else rb.2
      else st

/-- Final state of `parse_passwords`' main loop from the initial state. -/
def passwordsLoopSt (toks : List Tok) (filename : String) : St :=
  passwords_go toks filename (toks.length + 1) ⟨0, []⟩ false

/-- Embeds `parse_passwords` on an already-tokenized input: leftover
tokens raise a `SyntaxError` naming the offending token and its position;
otherwise the accumulated credentials are returned. -/
def parse_passwords (toks : List Tok) (filename : String) : PResult :=
  let stf := passwordsLoopSt toks filename
  if stf.pos ≠ toks.length then
    PResult.err ⟨get_current_token toks stf, stf.pos⟩
  else PResult.ok stf.out

/-! Archive text decoding (`models/archive_wrapper.py`) and file
classification / directory grouping (`processing.py`). -/

/-- Embeds `text.replace("\x00", "\\00")`: every raw NUL character is
rewritten as the two-character escape backslash-zero-zero. -/
def nulEscape : List Char → List Char
  | [] => []
  | c :: cs => (if c = '\x00' then ['\\', '0', '0'] else [c]) ++ nulEscape cs

/-- Embeds the decoding tail of `ArchiveWrapper.read_file`: strict UTF-8
decode first, `errors="ignore"` decode on failure, then NUL escaping.
(The archive retrieval itself is an external collaborator.) -/
def read_file (fileBytes : List Nat) : String :=
  let text : List Char :=
    match utf8Decode fileBytes with
    | some cs => cs
    | none => utf8DecodeIgnore fileBytes
  String.mk (nulEscape text)

/-- Lossy UTF-8 decode with replacement: undecodable bytes become
U+FFFD.  This follows the SPEC's wording (`lossy (replacement) decode
second`), for comparison with the code's `errors="ignore"` fallback. -/
def utf8ReplaceGo : Nat → List Nat → List Char
  | _, [] => []
  | 0, _ :: _ => []
  | fuel + 1, l@(_ :: bs) =>
      match utf8Step l with
      | some (c, rest) => c :: utf8ReplaceGo fuel rest
      | none => Char.ofNat 0xFFFD :: utf8ReplaceGo fuel bs

/-- Spec-described variant of `read_file` using the replacement decoder;
defined only to compare against the code's behavior. -/
def read_text_spec (fileBytes : List Nat) : String :=
  let text : List Char :=
    match utf8Decode fileBytes with
    | some cs => cs
    | none => utf8ReplaceGo fileBytes.length fileBytes
  String.mk (nulEscape text)

/-- Embeds `get_system_dir`: `start = find("/") + 1`; when a slash
exists, a second find from `start` yields `filepath[start:end]` when
`end > start` (two-level layout), else `filepath[:start]`; with no slash
the whole path is returned. -/
def get_system_dir (filepath : String) : String :=
  let cs := filepath.data
  match cs.findIdx? (· = '/') with
  | some i =>
      let start := i + 1
      match (cs.drop start).findIdx? (· = '/') with
      | some j =>
          let e := start + j
          if start < e then String.mk ((cs.drop start).take (e - start))
          else String.mk (cs.take start)
      | none => String.mk (cs.take start)
  | none => filepath

/-- Log file categories (`LogFileType`). -/
inductive LogFileType where
  | passwords
  | system
  | ip
  | copyright
  deriving DecidableEq, Repr

/-- Embeds `LogFile`. -/
structure LogFile where
  type : LogFileType
  filename : String
  system_dir : String
  deriving DecidableEq, Repr

/-- Alternation step of `FILENAMES_REGEX` at index `i`: tries the four
capture groups in order — `password` not followed by `cracker` (group 2),
`system`/`information`/`userinfo` (group 3), `\bip` (group 4),
`credits`/`copyright`/`read` (group 5) — returning the matched group and
the match end. -/
def filenamesAlt (cs : List Char) (i : Nat) : Option (Nat × Nat) :=
  let at_ := fun (kw : String) => ciIsPre kw.data (cs.drop i)
  if at_ "password" && !(ciIsPre "cracker".data (cs.drop (i + 8))) then
    some (2, i + 8)
  else if at_ "system" then some (3, i + 6)
  else if at_ "information" then some (3, i + 11)
  else if at_ "userinfo" then some (3, i + 8)
  else if (match i, cs[i-1]? with
      | 0, _ => true
      | _ + 1, some c => !isWordChar c
      | _ + 1, none => true) && at_ "ip" then some (4, i + 2)
  else if at_ "credits" then some (5, i + 7)
  else if at_ "copyright" then some (5, i + 9)
  else if at_ "read" then some (5, i + 4)
  else none

/-- Embeds `FILENAMES_PATTERN.search(name)` and reports which capture
group participated.  `re.search` takes the leftmost matching start; at a
given start the leading greedy `.*` (which cannot cross a newline)
places the alternation at the largest feasible index, and the trailing
`.*\.txt` requires a case-insensitive `.txt` later on the same line. -/
def filenamesGroup (cs : List Char) : Option Nat :=
  (List.range (cs.length + 1)).findSome? fun s =>
    let seg := ((cs.drop s).takeWhile (· ≠ '\n')).length
    ((List.range (seg + 1)).reverse.map (· + s)).findSome? fun i =>
      (filenamesAlt cs i).bind fun p =>
        let e := p.2
        let seg2 := ((cs.drop e).takeWhile (· ≠ '\n')).length
        if (List.range (seg2 + 1)).any
            (fun d => ciIsPre ".txt".data (cs.drop (e + d))) then
          some p.1
        else none

/-- Python string comparison: lexicographic on code points (a
kernel-reducible equivalent of `String.lt`). -/
def pyStrLt : List Char → List Char → Bool
  | [], [] => false
  | [], _ :: _ => true
  | _ :: _, [] => false
  | a :: as, b :: bs =>
      if a.toNat < b.toNat then true
      else if b.toNat < a.toNat then false
      else pyStrLt as bs

/-- Stable insertion into a sorted list, for Python `sorted`. -/
def insertSorted (x : String) : List String → List String
  | [] => [x]
  | y :: ys =>
      if !pyStrLt y.data x.data then x :: y :: ys else y :: insertSorted x ys

/-- Embeds Python `sorted` over strings (code-point lexicographic). -/
def sortNames (l : List String) : List String := l.foldr insertSorted []

/-- Body of `generate_file_list` over the sorted names.  The outer
`Option` models the `UnboundLocalError` crash when group 3 matches but
the name contains `#`: the `elif` chain then assigns no `log_type`. -/
def gen_go : List String → Option (List LogFile)
  | [] => some []
  | n :: ns =>
      match filenamesGroup n.data with
      | none => gen_go ns
      | some g =>
          let entry : Option LogFile :=
            if g = 2 then some ⟨.passwords, n, get_system_dir n⟩
            else if g = 3 then
              if n.data.contains '#' then none
              else some ⟨.system, n, get_system_dir n⟩
            else if g = 4 then some ⟨.ip, n, get_system_dir n⟩
            else if g = 5 then some ⟨.copyright, n, get_system_dir n⟩
            else none
          match entry with
          | some e => (gen_go ns).map (e :: ·)
          | none => none

/-- Embeds `generate_file_list` on the archive's name list. -/
def generate_file_list (names : List String) : Option (List LogFile) :=
  gen_go (sortNames names)

/-- Length of the maximal prefix run sharing `process_system_dir`'s
`current_dir`: the count it returns. -/
def runLen (dir : String) : List LogFile → Nat
  | [] => 0
  | f :: fs => if f.system_dir = dir then runLen dir fs + 1 else 0

/-- Directory-run splitting of `process_archive`'s walker loop
(`index += process_system_dir(...)`); each step consumes the maximal
contiguous run sharing the first entry's directory key. -/
def walkRuns_go : Nat → List LogFile → List (List LogFile)
  | 0, _ => []
  | _ + 1, [] => []
  | fuel + 1, f :: fs =>
      let c := runLen f.system_dir (f :: fs)
      (f :: fs).take c :: walkRuns_go fuel ((f :: fs).drop c)

/-- Entry point for the walker's run splitting. -/
def walkRuns (files : List LogFile) : List (List LogFile) :=
  walkRuns_go files.length files

/-- Projection of a parse result onto the credential `domain` fields
(`none` for a raised error). -/
def resultDomains : PResult → Option (List (Option String))
  | .ok creds => some (creds.map Credential.domain)
  | .err _ => none

/-- Projection of a parse result onto the credential `password` fields
(`none` for a raised error). -/
def resultPasswords : PResult → Option (List (Option String))
  | .ok creds => some (creds.map Credential.password)
  | .err _ => none

lemma eat_pos_le (toks : List Tok) (st : St) (ty : String) (v : Option String)
    (h : st.pos ≤ toks.length) : (eat toks st ty v).2.pos ≤ toks.length := by
  unfold eat
  split
  · cases hg : get_current_token toks st with
    | none => simpa using h
    | some t =>
        simp only
        split
        · split
          · simpa using ‹st.pos < toks.length›
          · simpa using h
        · simpa using h
  · simpa using h

lemma stepOp_pos_le (toks : List Tok) (st : St) (op : POp)
    (h : st.pos ≤ toks.length) : (stepOp toks st op).pos ≤ toks.length := by
  cases op with
  | opEat ty v => exact eat_pos_le toks st ty v h
  | opSetPos n =>
      simp only [stepOp]
      cases hs : set_position toks st n with
      | none => simpa using h
      | some st' =>
          unfold set_position at hs
          split at hs
          · exact absurd hs (by simp)
          · rename_i hc
            push_neg at hc
            cases hs
            simpa using (by omega : n.toNat ≤ toks.length)
  | opCurrent => simpa using h

lemma runOps_pos_le (toks : List Tok) (ops : List POp) (st : St)
    (h : st.pos ≤ toks.length) : (runOps toks ops st).pos ≤ toks.length := by
  induction ops generalizing st with
  | nil => simpa [runOps] using h
  | cons op ops ih =>
      simpa [runOps, List.foldl_cons] using
        ih (stepOp toks st op) (stepOp_pos_le toks st op h)

/-- Claim C6: over any token list and any sequence of primitive
operations the cursor stays within `[0, size]`; assigning a position
outside that range is rejected (models the raised `IndexError`) with the
state left unchanged; `get_current_token` fails exactly when the position
equals the size (given the cursor invariant); and `eat` returns the
current token and advances by exactly one on an exact type (and, when
given, value) match, otherwise returns no token and leaves the state
unchanged. -/
theorem C6_parser_primitives (toks : List Tok) (ops : List POp) (st : St)
    (n : Int) (ty : String) (v : Option String) :
    (st.pos ≤ toks.length → (runOps toks ops st).pos ≤ toks.length)
    ∧ ((n < 0 ∨ n > (toks.length : Int)) ↔ set_position toks st n = none)
    ∧ (set_position toks st n = none → stepOp toks st (.opSetPos n) = st)
    ∧ (st.pos ≤ toks.length →
        (get_current_token toks st = none ↔ st.pos = toks.length))
    ∧ (∀ t, toks[st.pos]? = some t → t.type = ty →
        (v = none ∨ v = some t.value) →
        eat toks st ty v = (some t, { st with pos := st.pos + 1 }))
    ∧ ((∀ t, toks[st.pos]? = some t →
          ¬(t.type = ty ∧ (v = none ∨ v = some t.value))) →
        eat toks st ty v = (none, st)) := by
  refine ⟨fun h => runOps_pos_le toks ops st h, ?_, ?_, ?_, ?_, ?_⟩
  · unfold set_position
    split
    · simpa using ‹_›
    · rename_i hc
      push_neg at hc
      constructor
      · intro h
        rcases h with h | h
        · exact absurd h (by omega)
        · exact absurd h (by omega)
      · intro h
        simp at h
  · intro h
    simp [stepOp, h]
  · intro h
    unfold get_current_token
    rw [List.getElem?_eq_none_iff]
    omega
  · intro t hget hty hv
    have hlt : st.pos < toks.length := by
      by_contra hge
      rw [List.getElem?_eq_none_iff.mpr (by omega)] at hget
      exact absurd hget (by simp)
    unfold eat get_current_token
    rw [if_pos hlt, hget]
    simp [hty, hv]
  · intro h
    unfold eat get_current_token
    split
    · cases hget : toks[st.pos]? with
      | none => simp
      | some t =>
          have := h t hget
          simp only
          split
          · split
            · exact absurd ⟨‹_›, ‹_›⟩ this
            · rfl
          · rfl
    · rfl

/-- Claim C6 witness at a concrete token list. -/
theorem C6_parser_primitives_witness :
    (runOps [Tok.mk "WORD" "a"] [POp.opEat "WORD" none] ⟨0, []⟩).pos ≤ 1
    ∧ eat [Tok.mk "WORD" "a"] ⟨0, []⟩ "WORD" none =
        (some (Tok.mk "WORD" "a"), ⟨1, []⟩) := by
  have h := C6_parser_primitives [Tok.mk "WORD" "a"] [POp.opEat "WORD" none]
    ⟨0, []⟩ 0 "WORD" none
  exact ⟨h.1 (by decide), h.2.2.2.2.1 (Tok.mk "WORD" "a") rfl rfl (Or.inl rfl)⟩

lemma parse_entry_go_run (toks : List Tok) (i : Nat) (hi : i < toks.length)
    (hterm : ¬((toks.get ⟨i, hi⟩).type = "WORD"
        ∨ (toks.get ⟨i, hi⟩).type = "SPACE")) :
    ∀ (k : Nat) (st : St) (entry : String), st.pos + k = i →
      (∀ j (hj : j < toks.length), st.pos ≤ j → j < i →
        ((toks.get ⟨j, hj⟩).type = "WORD"
          ∨ (toks.get ⟨j, hj⟩).type = "SPACE")) →
      parse_entry_go toks (toks.length - st.pos) st entry =
        (entry ++ concatVals toks st.pos i, { st with pos := i + 1 }) := by
  intro k
  induction k with
  | zero =>
      intro st entry hpos _hmid
      have hpi : st.pos = i := by omega
      have hfuel : toks.length - st.pos = (toks.length - st.pos - 1) + 1 := by
        omega
      rw [hfuel]
      unfold parse_entry_go
      rw [dif_pos (by omega : st.pos < toks.length)]
      have hterm' : ¬((toks.get ⟨st.pos, by omega⟩).type = "WORD"
          ∨ (toks.get ⟨st.pos, by omega⟩).type = "SPACE") := by
        subst hpi; exact hterm
      rw [if_neg hterm']
      have hcv : concatVals toks st.pos i = "" := by
        unfold concatVals
        rw [hpi]
        simp [joinVals]
      rw [hcv, hpi]
      simp
  | succ k ih =>
      intro st entry hpos hmid
      have hlt : st.pos < i := by omega
      have hfuel : toks.length - st.pos = (toks.length - (st.pos + 1)) + 1 := by
        omega
      rw [hfuel]
      unfold parse_entry_go
      rw [dif_pos (by omega : st.pos < toks.length)]
      have hws : (toks.get ⟨st.pos, by omega⟩).type = "WORD"
          ∨ (toks.get ⟨st.pos, by omega⟩).type = "SPACE" :=
        hmid st.pos (by omega) (le_refl _) hlt
      rw [if_pos hws]
      have ihr := ih { st with pos := st.pos + 1 }
        (entry ++ (toks.get ⟨st.pos, by omega⟩).value) (by simp; omega)
        (fun j hj hle hlt' => hmid j hj (by simp at hle; omega) hlt')
      simp only at ihr
      rw [ihr]
      have hcv : concatVals toks st.pos i =
          (toks.get ⟨st.pos, by omega⟩).value ++ concatVals toks (st.pos + 1) i := by
        unfold concatVals
        rw [List.drop_eq_getElem_cons (by omega : st.pos < toks.length)]
        have hsplit : i - st.pos = (i - (st.pos + 1)) + 1 := by omega
        rw [hsplit, List.take_succ_cons]
        simp [joinVals, List.get_eq_getElem]
      rw [hcv, String.append_assoc]

/-- Claim C10: when a non-WORD/SPACE token exists at index `i` beyond the
cursor with only WORD/SPACE tokens before it, `parse_entry` leaves the
cursor one past that terminating token (so a caller's subsequent
`eat "NEWLINE"` applies to the following line), and returns the
concatenation of the consumed WORD/SPACE values, or no value when that
concatenation is empty. -/
theorem C10_parse_entry_consumes_terminator (toks : List Tok) (st : St)
    (i : Nat) (hi : i < toks.length) (hpos : st.pos ≤ i)
    (hterm : ¬((toks.get ⟨i, hi⟩).type = "WORD"
        ∨ (toks.get ⟨i, hi⟩).type = "SPACE"))
    (hmid : ∀ j (hj : j < toks.length), st.pos ≤ j → j < i →
      ((toks.get ⟨j, hj⟩).type = "WORD"
        ∨ (toks.get ⟨j, hj⟩).type = "SPACE")) :
    parse_entry toks st =
      (if concatVals toks st.pos i = "" then none
        else some (concatVals toks st.pos i),
       { st with pos := i + 1 }) := by
  obtain ⟨k, hk⟩ := Nat.exists_eq_add_of_le hpos
  unfold parse_entry
  rw [parse_entry_go_run toks i hi hterm k st "" (by omega) hmid]
  simp

/-- Claim C10 witness at a concrete token list. -/
theorem C10_parse_entry_witness :
    parse_entry [Tok.mk "WORD" "a", Tok.mk "NEWLINE" "\n", Tok.mk "WORD" "b"]
      ⟨0, []⟩ = (some "a", ⟨2, []⟩) := by
  have h := C10_parse_entry_consumes_terminator
    [Tok.mk "WORD" "a", Tok.mk "NEWLINE" "\n", Tok.mk "WORD" "b"] ⟨0, []⟩ 1
    (by decide) (by decide) (by decide)
    (by
      intro j hj h0 h1
      interval_cases j
      · exact Or.inl rfl)
  rw [h]
  rfl

/-- Claim C8 counterexample: `"IP:"` and `"LANIP:"` are lexed with the
SAME token type (both yield the single type `IP_PREFIX`), refuting the
claim that they are kept as two distinct token types. -/
theorem C8_counterexample :
    (tokenize_system "IP:").map (List.map Tok.type)
        = (tokenize_system "LANIP:").map (List.map Tok.type)
    ∧ (tokenize_system "IP:").map (List.map Tok.type)
        = some ["IP_PREFIX"] := ⟨rfl, rfl⟩

/-- Claim C8 amended: the prefixes `"IP:"` and `"LANIP:"` are lexed as
the same token type `IP_PREFIX`; the tokens differ only in their raw
value, which is what `parse_ip_line` inspects for its precedence rule. -/
theorem C8_amended_single_type :
    tokenize_system "IP:" = some [Tok.mk "IP_PREFIX" "IP:"]
    ∧ tokenize_system "LANIP:" = some [Tok.mk "IP_PREFIX" "LANIP:"] :=
  ⟨rfl, rfl⟩

/-- Claim C1 evaluation at the failing input: parsing
`"IP: 1.2.3.4\nLANIP: 10.0.0.5\n"` yields `ip_address = "10.0.0.5"`,
not `"1.2.3.4"`: the guard in `parse_ip_line` compares the eaten token's
value `"LANIP:"` (colon included) lowercased against `"lanip"`, which
never matches, so a later LANIP line overwrites an explicit IP value,
contradicting the code's own `Prefer IP over LANIP` comment.  In the
reverse line order the explicit IP wins, so the result is order
dependent. -/
theorem C1_lanip_overwrites_explicit_ip :
    ((tokenize_system "IP: 1.2.3.4\nLANIP: 10.0.0.5\n").bind parse_system)
        = some (some { ip_address := some "10.0.0.5" })
    ∧ ((tokenize_system "LANIP: 10.0.0.5\nIP: 1.2.3.4\n").bind parse_system)
        = some (some { ip_address := some "1.2.3.4" }) := ⟨by decide, by decide⟩

/-- Claim C4 counterexample: on the spec's example text the produced
Credential has `domain = none`, not `"example.com"`: the code derives the
domain via `urlparse(host).hostname`, which is `None` for a bare host
with no `//` netloc. -/
theorem C4_counterexample :
    ((tokenize_passwords
        "Host: example.com\nUser: a@b.com\nPassword: secret\n").map
      fun toks => resultDomains (parse_passwords toks "passwords.txt"))
      = some (some [(none : Option String)])
    ∧ (none : Option String) ≠ some "example.com" := ⟨by decide, by decide⟩

/-- Claim C4 amended: the example text yields exactly one Credential with
host `"example.com"`, username `"a@b.com"`, local part `"a"`, email
domain `"b.com"`, password `"secret"`, and `domain` left unset (a bare
host has no netloc for `urlparse`). -/
theorem C4_amended_single_credential :
    ((tokenize_passwords
        "Host: example.com\nUser: a@b.com\nPassword: secret\n").map
      fun toks => parse_passwords toks "passwords.txt")
      = some (PResult.ok [⟨none, some "example.com", some "a@b.com",
          some "secret", none, some "a", some "b.com",
          some "passwords.txt", none⟩]) := by decide

/-- Claim C5 counterexample: order independence fails in general.  Two
inputs with the same host, user and password lines in different relative
orders produce different Credential records: with the host line first,
the `android://` host triggers the multi-line password re-parse (password
`"abcde"`); with the password line first, the host is not yet known, so
the single-line parse stands (password `"ab"`). -/
theorem C5_counterexample :
    ((tokenize_passwords "Host: android://x\nPassword: ab\ncde\nUser: u\n").map
      fun toks => resultPasswords (parse_passwords toks "p.txt"))
      = some (some [some "abcde"])
    ∧ ((tokenize_passwords "User: u\nPassword: ab\ncde\nHost: android://x\n").map
      fun toks => resultPasswords (parse_passwords toks "p.txt"))
      = some (some [some "ab"]) := ⟨by decide, by decide⟩

/-- Claim C5 amended: for the spec's own example pair (host/user/password
versus user/password/host, software omitted, no multi-line special case)
the two line orders produce identical Credential records. -/
theorem C5_amended_reorder_same :
    ((tokenize_passwords
        "Host: example.com\nUser: a@b.com\nPassword: secret\n").map
      fun toks => parse_passwords toks "passwords.txt")
      = ((tokenize_passwords
        "User: a@b.com\nPassword: secret\nHost: example.com\n").map
      fun toks => parse_passwords toks "passwords.txt") := by
  have h1 : ((tokenize_passwords
        "Host: example.com\nUser: a@b.com\nPassword: secret\n").map
      fun toks => parse_passwords toks "passwords.txt")
      = some (PResult.ok [⟨none, some "example.com", some "a@b.com",
          some "secret", none, some "a", some "b.com",
          some "passwords.txt", none⟩]) := by decide
  have h2 : ((tokenize_passwords
        "User: a@b.com\nPassword: secret\nHost: example.com\n").map
      fun toks => parse_passwords toks "passwords.txt")
      = some (PResult.ok [⟨none, some "example.com", some "a@b.com",
          some "secret", none, some "a", some "b.com",
          some "passwords.txt", none⟩]) := by decide
  rw [h1, h2]

lemma nulEscape_no_nul (cs : List Char) : '\x00' ∉ nulEscape cs := by
  induction cs with
  | nil => simp [nulEscape]
  | cons c cs ih =>
      unfold nulEscape
      intro hmem
      rcases List.mem_append.mp hmem with h | h
      · by_cases hc : c = '\x00'
        · rw [if_pos hc] at h
          exact absurd h (by decide)
        · rw [if_neg hc] at h
          simp at h
          exact hc h.symm
      · exact ih h

/-- Claim C9 counterexample: the lossy fallback uses `errors="ignore"`
(dropping undecodable bytes), not replacement: on the bytes
`[0x41, 0xFF, 0x42]` the code yields `"AB"` while the spec's replacement
decode would yield `"A� B"` (without the space). -/
theorem C9_counterexample :
    read_file [0x41, 0xFF, 0x42] = "AB"
    ∧ read_text_spec [0x41, 0xFF, 0x42] = "A�B"
    ∧ read_file [0x41, 0xFF, 0x42] ≠ read_text_spec [0x41, 0xFF, 0x42] := by
  refine ⟨by decide, by decide, by decide⟩

/-- Claim C9 amended: `read_file` first attempts a lossless UTF-8 decode
of the raw bytes; on failure it falls back to the lossy
`errors="ignore"` decode (undecodable bytes are dropped, not replaced);
and every raw NUL byte is rewritten as the two-character escape `\00`,
so the returned string never contains a raw NUL character. -/
theorem C9_read_file_decode (fileBytes : List Nat) :
    (∀ cs, utf8Decode fileBytes = some cs →
        read_file fileBytes = String.mk (nulEscape cs))
    ∧ (utf8Decode fileBytes = none →
        read_file fileBytes = String.mk (nulEscape (utf8DecodeIgnore fileBytes)))
    ∧ '\x00' ∉ (read_file fileBytes).data := by
  refine ⟨?_, ?_, ?_⟩
  · intro cs hcs
    unfold read_file
    rw [hcs]
  · intro hnone
    unfold read_file
    rw [hnone]
  · unfold read_file
    cases utf8Decode fileBytes with
    | some cs => exact nulEscape_no_nul cs
    | none => exact nulEscape_no_nul _

/-- Claim C9 witness: concrete applications of the amended theorem. -/
theorem C9_read_file_decode_witness :
    read_file [0, 65] = "\\00A"
    ∧ read_file [0x41, 0xFF] = "A"
    ∧ '\x00' ∉ (read_file [0, 65]).data := by
  have h1 := C9_read_file_decode [0, 65]
  have h2 := C9_read_file_decode [0x41, 0xFF]
  exact ⟨(h1.1 ['\x00', 'A'] (by decide)).trans (by decide),
    (h2.2.1 (by decide)).trans (by decide), h1.2.2⟩

/-- Claim C7 counterexample: for a deeper (two-level) path the grouping
key is the SECOND path segment, not the first two segments; and for a
one-level path it is the first segment WITH its trailing slash, not the
bare first segment. -/
theorem C7_counterexample :
    get_system_dir "a/b/c.txt" = "b"
    ∧ "b" ≠ "a/b" ∧ "b" ≠ "a/b/"
    ∧ get_system_dir "user1/Passwords.txt" = "user1/"
    ∧ "user1/" ≠ "user1" := by
  refine ⟨by decide, by decide, by decide, by decide, by decide⟩

/-- Claim C7 amended: the key is the first segment including its
trailing slash for one-level paths and the second segment for deeper
paths; the entries `"user1/Passwords.txt"` and `"user2/Passwords.txt"`
still receive distinct keys, are classified as PASSWORDS files in
lexicographic order (from either input order), and the walker splits
them into two singleton directory runs, each processed into its own
SystemData. -/
theorem C7_amended_grouping :
    get_system_dir "user1/Passwords.txt" = "user1/"
    ∧ get_system_dir "user2/Passwords.txt" = "user2/"
    ∧ ("user1/" : String) ≠ "user2/"
    ∧ generate_file_list ["user2/Passwords.txt", "user1/Passwords.txt"]
        = some [⟨.passwords, "user1/Passwords.txt", "user1/"⟩,
                ⟨.passwords, "user2/Passwords.txt", "user2/"⟩]
    ∧ walkRuns [⟨.passwords, "user1/Passwords.txt", "user1/"⟩,
                ⟨.passwords, "user2/Passwords.txt", "user2/"⟩]
        = [[⟨.passwords, "user1/Passwords.txt", "user1/"⟩],
           [⟨.passwords, "user2/Passwords.txt", "user2/"⟩]] := by
  refine ⟨by decide, by decide, by decide, by decide, by decide⟩

/-! Invariant lemmas: every parsing operation keeps the cursor within
`[0, size]` and (up to the user-block append) preserves the output
list. -/

lemma eat_out (toks : List Tok) (st : St) (ty : String) (v : Option String) :
    (eat toks st ty v).2.out = st.out := by
  unfold eat
  repeat' split
  all_goals rfl

lemma parse_entry_go_out (toks : List Tok) (fuel : Nat) :
    ∀ (st : St) (entry : String),
      (parse_entry_go toks fuel st entry).2.out = st.out := by
  induction fuel with
  | zero => intro st entry; rfl
  | succ fuel ih =>
      intro st entry
      simp only [parse_entry_go]
      split
      · split
        · exact ih _ _
        · rfl
      · rfl

lemma parse_entry_out (toks : List Tok) (st : St) :
    (parse_entry toks st).2.out = st.out :=
  parse_entry_go_out toks _ st ""

lemma parse_entry_go_pos_le (toks : List Tok) (fuel : Nat) :
    ∀ (st : St) (entry : String), st.pos ≤ toks.length →
      (parse_entry_go toks fuel st entry).2.pos ≤ toks.length := by
  induction fuel with
  | zero => intro st entry h; exact h
  | succ fuel ih =>
      intro st entry h
      simp only [parse_entry_go]
      split
      · split
        · exact ih _ _ (by simp; omega)
        · simp
          omega
      · exact h

lemma parse_entry_pos_le (toks : List Tok) (st : St)
    (h : st.pos ≤ toks.length) :
    (parse_entry toks st).2.pos ≤ toks.length :=
  parse_entry_go_pos_le toks _ st "" h

lemma parse_multiline_go_out (toks : List Tok) (fuel : Nat) :
    ∀ (st : St) (entry : String),
      (parse_multiline_go toks fuel st entry).2.out = st.out := by
  induction fuel with
  | zero => intro st entry; rfl
  | succ fuel ih =>
      intro st entry
      simp only [parse_multiline_go]
      split
      · split
        · simp [ih, eat_out]
        · split
          · simp [ih, eat_out]
          · simp [eat_out]
      · rfl

lemma parse_multiline_go_pos_le (toks : List Tok) (fuel : Nat) :
    ∀ (st : St) (entry : String), st.pos ≤ toks.length →
      (parse_multiline_go toks fuel st entry).2.pos ≤ toks.length := by
  induction fuel with
  | zero => intro st entry h; exact h
  | succ fuel ih =>
      intro st entry h
      simp only [parse_multiline_go]
      split
      · split
        · exact ih _ _ (eat_pos_le toks st "WORD" none h)
        · split
          · exact ih _ _
              (eat_pos_le toks _ "NEWLINE" none
                (eat_pos_le toks st "WORD" none h))
          · exact eat_pos_le toks _ "NEWLINE" none
              (eat_pos_le toks st "WORD" none h)
      · exact h

lemma parse_multiline_entry_out (toks : List Tok) (st : St) :
    (parse_multiline_entry toks st).2.out = st.out := by
  simp only [parse_multiline_entry]
  split
  · split
    all_goals simp [parse_multiline_go_out]
  · simp [parse_multiline_go_out]

lemma parse_multiline_entry_pos_le (toks : List Tok) (st : St)
    (h : st.pos ≤ toks.length) :
    (parse_multiline_entry toks st).2.pos ≤ toks.length := by
  simp only [parse_multiline_entry]
  split
  · split
    all_goals exact parse_multiline_go_pos_le toks _ st "" h
  · exact parse_multiline_go_pos_le toks _ st "" h

lemma eatWordOrSpace_out (toks : List Tok) (st : St) :
    (eatWordOrSpace toks st).2.out = st.out := by
  simp only [eatWordOrSpace]
  split
  · exact eat_out toks st "WORD" none
  · simp [eat_out]

lemma eatWordOrSpace_pos_le (toks : List Tok) (st : St)
    (h : st.pos ≤ toks.length) :
    (eatWordOrSpace toks st).2.pos ≤ toks.length := by
  simp only [eatWordOrSpace]
  split
  · exact eat_pos_le toks st "WORD" none h
  · exact eat_pos_le toks _ "SPACE" none (eat_pos_le toks st "WORD" none h)

lemma skipWS_go_out (toks : List Tok) (fuel : Nat) :
    ∀ (st : St), (skipWS_go toks fuel st).out = st.out := by
  induction fuel with
  | zero => intro st; rfl
  | succ fuel ih =>
      intro st
      simp only [skipWS_go]
      split
      · simp [ih, eatWordOrSpace_out]
      · simp [eatWordOrSpace_out]

lemma skipWS_go_pos_le (toks : List Tok) (fuel : Nat) :
    ∀ (st : St), st.pos ≤ toks.length →
      (skipWS_go toks fuel st).pos ≤ toks.length := by
  induction fuel with
  | zero => intro st h; exact h
  | succ fuel ih =>
      intro st h
      simp only [skipWS_go]
      split
      · exact ih _ (eatWordOrSpace_pos_le toks st h)
      · exact eatWordOrSpace_pos_le toks st h

lemma skip_header_line_out (toks : List Tok) (st : St) :
    (skip_header_line toks st).2.out = st.out := by
  simp only [skip_header_line]
  split
  · simp [eat_out, skipWS_go_out, eatWordOrSpace_out]
  · simp [eatWordOrSpace_out]

lemma skip_header_line_pos_le (toks : List Tok) (st : St)
    (h : st.pos ≤ toks.length) :
    (skip_header_line toks st).2.pos ≤ toks.length := by
  simp only [skip_header_line]
  split
  · exact eat_pos_le toks _ "NEWLINE" none
      (skipWS_go_pos_le toks _ _ (eatWordOrSpace_pos_le toks st h))
  · exact eatWordOrSpace_pos_le toks st h

lemma seller_go_out (toks : List Tok) (fuel : Nat) :
    ∀ (st : St), (seller_go toks fuel st).out = st.out := by
  induction fuel with
  | zero => intro st; rfl
  | succ fuel ih =>
      intro st
      simp only [seller_go]
      repeat' split
      all_goals simp [ih, eat_out, parse_entry_out]

lemma seller_go_pos_le (toks : List Tok) (fuel : Nat) :
    ∀ (st : St), st.pos ≤ toks.length →
      (seller_go toks fuel st).pos ≤ toks.length := by
  induction fuel with
  | zero => intro st h; exact h
  | succ fuel ih =>
      intro st h
      simp only [seller_go]
      repeat' split
      all_goals
        repeat'
          first
          | assumption
          | apply ih
          | apply eat_pos_le
          | apply parse_entry_pos_le

lemma skip_seller_block_out (toks : List Tok) (st : St) :
    (skip_seller_block toks st).2.out = st.out := by
  simp only [skip_seller_block]
  split
  · simp [seller_go_out, eat_out]
  · simp [eat_out]

lemma skip_seller_block_pos_le (toks : List Tok) (st : St)
    (h : st.pos ≤ toks.length) :
    (skip_seller_block toks st).2.pos ≤ toks.length := by
  simp only [skip_seller_block]
  split
  · exact seller_go_pos_le toks _ _
      (eat_pos_le toks st "SELLER_PREFIX" none h)
  · exact eat_pos_le toks st "SELLER_PREFIX" none h

lemma skipNlSp_go_out (toks : List Tok) (fuel : Nat) :
    ∀ (st : St), (skipNlSp_go toks fuel st).out = st.out := by
  induction fuel with
  | zero => intro st; rfl
  | succ fuel ih =>
      intro st
      simp only [skipNlSp_go]
      repeat' split
      all_goals simp [ih, eat_out]

lemma skipNlSp_go_pos_le (toks : List Tok) (fuel : Nat) :
    ∀ (st : St), st.pos ≤ toks.length →
      (skipNlSp_go toks fuel st).pos ≤ toks.length := by
  induction fuel with
  | zero => intro st h; exact h
  | succ fuel ih =>
      intro st h
      have h1 : ((eat toks st "NEWLINE" none).2).pos ≤ toks.length :=
        eat_pos_le toks st "NEWLINE" none h
      simp only [skipNlSp_go]
      repeat' split
      all_goals
        first
        | exact ih _ h1
        | exact h1
        | exact ih _ (eat_pos_le toks _ "SPACE" none h1)
        | exact eat_pos_le toks _ "SPACE" none h1

lemma skip_profile_line_out (toks : List Tok) (st : St) :
    (skip_profile_line toks st).out = st.out := by
  simp only [skip_profile_line]
  split
  · simp [skipWS_go_out, eat_out]
  · simp [eat_out]

lemma skip_profile_line_pos_le (toks : List Tok) (st : St)
    (h : st.pos ≤ toks.length) :
    (skip_profile_line toks st).pos ≤ toks.length := by
  simp only [skip_profile_line]
  split
  · exact skipWS_go_pos_le toks _ _
      (eat_pos_le toks st "WORD" (some "profile:") h)
  · exact eat_pos_le toks st "WORD" (some "profile:") h

lemma parse_software_line_out (toks : List Tok) (st : St) (c : Credential) :
    (parse_software_line toks st c).2.1.out = st.out := by
  simp only [parse_software_line]
  repeat' split
  all_goals simp [skip_profile_line_out, eat_out, parse_entry_out]

lemma parse_software_line_pos_le (toks : List Tok) (st : St) (c : Credential)
    (h : st.pos ≤ toks.length) :
    (parse_software_line toks st c).2.1.pos ≤ toks.length := by
  have hS := eat_pos_le toks st "SOFT_NO_PREFIX" none h
  simp only [parse_software_line]
  repeat' split
  all_goals
    first
    | (repeat'
        first
        | assumption
        | apply skip_profile_line_pos_le
        | apply eat_pos_le
        | apply parse_entry_pos_le
       done)
    | (simp
       omega)

lemma parse_host_line_out (toks : List Tok) (st : St) (c : Credential) :
    (parse_host_line toks st c).2.1.out = st.out := by
  simp only [parse_host_line]
  repeat' split
  all_goals simp [eat_out, parse_entry_out]

lemma parse_host_line_pos_le (toks : List Tok) (st : St) (c : Credential)
    (h : st.pos ≤ toks.length) :
    (parse_host_line toks st c).2.1.pos ≤ toks.length := by
  simp only [parse_host_line]
  repeat' split
  all_goals
    repeat'
      first
      | assumption
      | apply eat_pos_le
      | apply parse_entry_pos_le

lemma parse_user_line_out (toks : List Tok) (st : St) (c : Credential) :
    (parse_user_line toks st c).2.1.out = st.out := by
  simp only [parse_user_line]
  repeat' split
  all_goals simp [eat_out, parse_entry_out]

lemma parse_user_line_pos_le (toks : List Tok) (st : St) (c : Credential)
    (h : st.pos ≤ toks.length) :
    (parse_user_line toks st c).2.1.pos ≤ toks.length := by
  simp only [parse_user_line]
  repeat' split
  all_goals
    repeat'
      first
      | assumption
      | apply eat_pos_le
      | apply parse_entry_pos_le

lemma parse_password_line_out (toks : List Tok) (st : St) (c : Credential) :
    (parse_password_line toks st c).2.1.out = st.out := by
  simp only [parse_password_line]
  repeat' split
  all_goals
    simp [parse_multiline_entry_out, eat_out, parse_entry_out]

lemma parse_password_line_pos_le (toks : List Tok) (st : St) (c : Credential)
    (h : st.pos ≤ toks.length) :
    (parse_password_line toks st c).2.1.pos ≤ toks.length := by
  have h1 : ((eat toks (eat toks st "PASSWORD_PREFIX" none).2
      "SPACE" none).2).pos ≤ toks.length :=
    eat_pos_le toks _ "SPACE" none (eat_pos_le toks st "PASSWORD_PREFIX" none h)
  simp only [parse_password_line]
  repeat' split
  all_goals
    first
    | (repeat'
        first
        | assumption
        | apply eat_pos_le
        | apply parse_entry_pos_le
       done)
    | (show (parse_multiline_entry toks _).2.pos ≤ toks.length
       refine parse_multiline_entry_pos_le toks _ ?_
       simpa using h1)

lemma applyPFunc_out (toks : List Tok) (f : PFunc) (st : St) (c : Credential) :
    (applyPFunc toks f st c).2.1.out = st.out := by
  cases f with
  | soft => exact parse_software_line_out toks st c
  | host => exact parse_host_line_out toks st c
  | user => exact parse_user_line_out toks st c
  | pw => exact parse_password_line_out toks st c

lemma applyPFunc_pos_le (toks : List Tok) (f : PFunc) (st : St)
    (c : Credential) (h : st.pos ≤ toks.length) :
    (applyPFunc toks f st c).2.1.pos ≤ toks.length := by
  cases f with
  | soft => exact parse_software_line_pos_le toks st c h
  | host => exact parse_host_line_pos_le toks st c h
  | user => exact parse_user_line_pos_le toks st c h
  | pw => exact parse_password_line_pos_le toks st c h

lemma parse_line_out (toks : List Tok) (fs : List PFunc) :
    ∀ (st : St) (c : Credential),
      (parse_line toks fs st c).2.st.out = st.out := by
  induction fs with
  | nil => intro st c; rfl
  | cons f fs ih =>
      intro st c
      simp only [parse_line]
      split
      · simp [skipNlSp_go_out, applyPFunc_out]
      · simp [ih, applyPFunc_out]

lemma parse_line_pos_le (toks : List Tok) (fs : List PFunc) :
    ∀ (st : St) (c : Credential), st.pos ≤ toks.length →
      (parse_line toks fs st c).2.st.pos ≤ toks.length := by
  induction fs with
  | nil => intro st c h; exact h
  | cons f fs ih =>
      intro st c h
      simp only [parse_line]
      split
      · exact skipNlSp_go_pos_le toks _ _ (applyPFunc_pos_le toks f st c h)
      · exact ih _ _ (applyPFunc_pos_le toks f st c h)

lemma user_block_go_out (toks : List Tok) (fuel : Nat) :
    ∀ (fs : List PFunc) (st : St) (c : Credential),
      (user_block_go toks fuel fs st c).st.out = st.out := by
  induction fuel with
  | zero => intro fs st c; rfl
  | succ fuel ih =>
      intro fs st c
      simp only [user_block_go]
      split
      · simp [ih, parse_line_out]
      · simp [parse_line_out]

lemma user_block_go_pos_le (toks : List Tok) (fuel : Nat) :
    ∀ (fs : List PFunc) (st : St) (c : Credential), st.pos ≤ toks.length →
      (user_block_go toks fuel fs st c).st.pos ≤ toks.length := by
  induction fuel with
  | zero => intro fs st c h; exact h
  | succ fuel ih =>
      intro fs st c h
      simp only [user_block_go]
      split
      · exact ih _ _ _ (parse_line_pos_le toks fs st c h)
      · exact parse_line_pos_le toks fs st c h

lemma userBlockRes_out (toks : List Tok) (st : St) :
    (userBlockRes toks st).st.out = st.out :=
  user_block_go_out toks 5 _ st {}

lemma userBlockRes_pos_le (toks : List Tok) (st : St)
    (h : st.pos ≤ toks.length) :
    (userBlockRes toks st).st.pos ≤ toks.length :=
  user_block_go_pos_le toks 5 _ st {} h

lemma parse_user_block_pos_le (toks : List Tok) (st : St) (fn : String)
    (h : st.pos ≤ toks.length) :
    (parse_user_block toks st fn).2.pos ≤ toks.length := by
  simp only [parse_user_block]
  split
  · simpa using userBlockRes_pos_le toks st h
  · exact userBlockRes_pos_le toks st h

lemma passwords_go_pos_le (toks : List Tok) (fn : String) (fuel : Nat) :
    ∀ (st : St) (b : Bool), st.pos ≤ toks.length →
      (passwords_go toks fn fuel st b).pos ≤ toks.length := by
  induction fuel with
  | zero => intro st b h; exact h
  | succ fuel ih =>
      intro st b h
      have hseller : ((if b then (true, st)
          else skip_seller_block toks st) : Bool × St).2.pos ≤ toks.length := by
        split
        · exact h
        · exact skip_seller_block_pos_le toks st h
      simp only [passwords_go]
      repeat' split
      all_goals
        repeat'
          first
          | assumption
          | exact hseller
          | apply ih
          | apply parse_user_block_pos_le
          | apply skip_header_line_pos_le
          | apply eat_pos_le
          | apply skip_seller_block_pos_le

lemma passwordsLoopSt_pos_le (toks : List Tok) (fn : String) :
    (passwordsLoopSt toks fn).pos ≤ toks.length :=
  passwords_go_pos_le toks fn _ _ _ (Nat.zero_le _)

/-- Claim C3: a user block is accepted exactly when the parsed credential
has at least one populated (truthy) field or at least 3 of the 4 rules
matched; the loop itself never touches the output, and the credential is
appended (finalized) exactly when it has a populated field — an empty
block matching fewer than 3 rules is rejected and never appended. -/
theorem C3_parse_user_block_policy (toks : List Tok) (st : St) (fn : String) :
    ((parse_user_block toks st fn).1 = true
      ↔ (credentialAny (userBlockRes toks st).cred = true
          ∨ 3 ≤ 4 - (userBlockRes toks st).funcs.length))
    ∧ (userBlockRes toks st).st.out = st.out
    ∧ ((parse_user_block toks st fn).2.out
        = if credentialAny (userBlockRes toks st).cred then
            st.out ++ [finalizeCred (userBlockRes toks st) fn]
          else st.out) := by
  refine ⟨?_, userBlockRes_out toks st, ?_⟩
  · simp only [parse_user_block]
    split
    · rename_i hC
      simp [hC]
    · rename_i hC
      simp only [Bool.not_eq_true] at hC
      simp only [hC, Bool.false_eq_true, false_or, decide_eq_true_eq]
      omega
  · simp only [parse_user_block]
    split
    · rename_i hC
      simp [hC, userBlockRes_out]
    · rename_i hC
      simp only [Bool.not_eq_true] at hC
      simp [hC, Bool.false_eq_true, userBlockRes_out]

/-- Claim C2: `parse_passwords` raises a grammar-violation error exactly
when the main parse loop stops strictly before the end of the token
list; the raised error carries the offending token (the one at the
stopping position) and that exact position; and when every token is
consumed the accumulated credential list is returned instead. -/
theorem C2_parse_passwords_leftover (toks : List Tok) (fn : String) :
    ((∃ e, parse_passwords toks fn = PResult.err e)
        ↔ (passwordsLoopSt toks fn).pos < toks.length)
    ∧ (∀ e, parse_passwords toks fn = PResult.err e →
        e.tok = toks[(passwordsLoopSt toks fn).pos]?
          ∧ e.pos = (passwordsLoopSt toks fn).pos)
    ∧ ((passwordsLoopSt toks fn).pos = toks.length →
        parse_passwords toks fn = PResult.ok (passwordsLoopSt toks fn).out) := by
  have hb := passwordsLoopSt_pos_le toks fn
  refine ⟨?_, ?_, ?_⟩
  · constructor
    · rintro ⟨e, he⟩
      simp only [parse_passwords] at he
      by_cases hp : (passwordsLoopSt toks fn).pos = toks.length
      · rw [if_neg (by omega)] at he
        exact absurd he (by simp)
      · omega
    · intro hlt
      refine ⟨⟨get_current_token toks (passwordsLoopSt toks fn),
        (passwordsLoopSt toks fn).pos⟩, ?_⟩
      simp only [parse_passwords]
      rw [if_pos (by omega)]
  · intro e he
    simp only [parse_passwords] at he
    split at he
    · cases he
      exact ⟨rfl, rfl⟩
    · exact absurd he (by simp)
  · intro heq
    simp only [parse_passwords]
    rw [if_neg (by omega)]

/-- Claim C2 witness: a fully consumed token list returns the (empty)
credential list, and a stuck token list raises the error. -/
theorem C2_parse_passwords_leftover_witness :
    parse_passwords [Tok.mk "NEWLINE" "\n"] "f" = PResult.ok []
    ∧ (∃ e, parse_passwords
        [Tok.mk "NEWLINE" "\n", Tok.mk "SOFT_NO_PREFIX" "x"] "f"
        = PResult.err e) := by
  constructor
  · exact ((C2_parse_passwords_leftover [Tok.mk "NEWLINE" "\n"] "f").2.2
      (by decide)).trans (by decide)
  · exact (C2_parse_passwords_leftover
      [Tok.mk "NEWLINE" "\n", Tok.mk "SOFT_NO_PREFIX" "x"] "f").1.mpr
      (by decide)

end StealerParser
